import Mathlib

/-!
Verification of the CoarseDropout transform
(`albumentations/augmentations/dropout/coarse_dropout.py`).

The transform samples a number of axis-aligned rectangular holes from
configured ranges, applies them to an image and optionally a mask, and
filters keypoints falling inside a hole.

Embedding conventions:
* Python ints are `Int`, Python floats are modelled exactly as `ℚ`.
* A `ScalarType` value (`Union[int, float]`) is the tagged type `Scalar`;
  `isinstance(x, int)` / `isinstance(x, float)` become matches on the tag.
* The caller-supplied random source is an entropy stream `e : Nat → ℚ`
  whose values lie in `[0, 1)`; the k-th random draw of an invocation
  reads `e k`, so sequential consumption of the rng is encoded by the
  draw indices.  `random_utils.randint` / `random_utils.uniform`
  (module `albumentations.random_utils`, not part of the sources here)
  are modelled from the spec by inverse-CDF sampling on one entropy value.
* Python `int(x)` truncates toward zero: `ratTrunc`.
-/

/-- A Python `ScalarType` value: either an `int` or a `float`
(floats modelled exactly as rationals). -/
inductive Scalar where
  | int (n : Int)
  | frac (q : ℚ)
deriving DecidableEq

/-- The numeric value of a `Scalar` (Python compares ints and floats
by value). -/
def scalarVal : Scalar → ℚ
  | .int n => (n : ℚ)
  | .frac q => q

/-- `isinstance(x, float)` for a `Scalar`. -/
def isFracScalar : Scalar → Bool
  | .int _ => false
  | .frac _ => true

/-- Python `int(x)` on an exact float value: truncation toward zero. -/
def ratTrunc (q : ℚ) : Int := if 0 ≤ q then ⌊q⌋ else ⌈q⌉

/-- Conversion of a `Scalar` to an `int` as numpy applies it to
`randint` bounds (ints unchanged, floats truncated toward zero). -/
def scalarTrunc : Scalar → Int
  | .int n => n
  | .frac q => ratTrunc q

/-- Python `min(s, m)` between a `Scalar` and an `int`: returns the first
argument when it is less than or equal to the second. -/
def scalarMin (s : Scalar) (m : Int) : Scalar :=
  if scalarVal s ≤ (m : ℚ) then s else .int m

/-- Python `s + 1` on a `Scalar`. -/
def scalarAddOne : Scalar → Scalar
  | .int n => .int (n + 1)
  | .frac q => .frac (q + 1)

/-- Modelled from the spec: `random_utils.randint` (module
`albumentations.random_utils`, not among the sources).  Per spec §4.1 an
integer draw `randint(low, high)` is uniform on the integer interval
`[low, high - 1]`; it is modelled by inverse-CDF sampling from one
entropy value `r ∈ [0, 1)`: the result is `low + ⌊r * (high - low)⌋`.
(Real numpy raises when `high ≤ low`; the model is total and is only
used under hypotheses making the interval non-empty.) -/
def randint (lo hi : Int) (r : ℚ) : Int := lo + ⌊r * ((hi - lo : Int) : ℚ)⌋

/-- Modelled from the spec: `random_utils.uniform` (module
`albumentations.random_utils`, not among the sources).  Per spec §4.1 a
fraction draw is uniform on `[low, high]`; modelled by inverse-CDF
sampling from one entropy value `r ∈ [0, 1)`. -/
def uniform (lo hi : ℚ) (r : ℚ) : ℚ := lo + r * (hi - lo)

/-- A hole `(x1, y1, x2, y2)` as appended by
`get_params_dependent_on_targets`. -/
structure Hole where
  x1 : Int
  y1 : Int
  x2 : Int
  y2 : Int
deriving DecidableEq

/-- `CoarseDropout.calculate_hole_dimensions(height, width, height_range,
width_range)`, lines 180–202 of the source.  The branch is chosen by
`isinstance(height_range[0], int)`; the integer branch clamps each upper
bound to the image dimension and draws `randint(min, max + 1)`, the float
branch draws `int(dim * uniform(low, high))`.  `rh` and `rw` are the two
entropy values consumed (height draw then width draw). -/
def calculate_hole_dimensions (height width : Int)
    (height_range width_range : Scalar × Scalar) (rh rw : ℚ) : Int × Int :=
  match height_range.1 with
  | .int min_height =>
      let max_height := scalarMin height_range.2 height
      let max_width := scalarMin width_range.2 width
      let hole_height := randint min_height (scalarTrunc (scalarAddOne max_height)) rh
      let hole_width := randint (scalarTrunc width_range.1) (scalarTrunc (scalarAddOne max_width)) rw
      (hole_height, hole_width)
  | .frac _ =>
      let hole_height := ratTrunc ((height : ℚ) * uniform (scalarVal height_range.1) (scalarVal height_range.2) rh)
      let hole_width := ratTrunc ((width : ℚ) * uniform (scalarVal width_range.1) (scalarVal width_range.2) rw)
      (hole_height, hole_width)

/-- Hole size computation following the spec's wording (§4.1 step 2): each
dimension is dispatched on its own range's type — integer-typed ranges are
clamped and drawn with `randint`, fraction-typed ranges use a uniform
fraction of the image dimension.  Used to compare the source's
`calculate_hole_dimensions` against the spec. -/
def sizeFromOwnRange (dim : Int) (r : Scalar × Scalar) (rr : ℚ) : Int :=
  match r.1 with
  | .int lo => randint lo (scalarTrunc (scalarAddOne (scalarMin r.2 dim))) rr
  | .frac _ => ratTrunc ((dim : ℚ) * uniform (scalarVal r.1) (scalarVal r.2) rr)

/-- Hole dimensions as the spec's per-range dispatch computes them. -/
def calculate_hole_dimensions_by_own_range (height width : Int)
    (height_range width_range : Scalar × Scalar) (rh rw : ℚ) : Int × Int :=
  (sizeFromOwnRange height height_range rh, sizeFromOwnRange width width_range rw)

/-- One iteration of the sampling loop in
`get_params_dependent_on_targets` (lines 211–223 of the source): hole `i`
consumes entropy values `4*i+1` (height), `4*i+2` (width), `4*i+3`
(`y1 = randint(0, height - hole_height + 1)`), `4*i+4`
(`x1 = randint(0, width - hole_width + 1)`), and yields
`(x1, y1, x1 + hole_width, y1 + hole_height)`. -/
def sampleHole (height width : Int) (height_range width_range : Scalar × Scalar)
    (e : Nat → ℚ) (i : Nat) : Hole :=
  let d := calculate_hole_dimensions height width height_range width_range (e (4*i+1)) (e (4*i+2))
  let y1 := randint 0 (height - d.1 + 1) (e (4*i+3))
  let x1 := randint 0 (width - d.2 + 1) (e (4*i+4))
  { x1 := x1, y1 := y1, x2 := x1 + d.2, y2 := y1 + d.1 }

/-- `CoarseDropout.get_params_dependent_on_targets`, lines 204–225 of the
source: draw `num_holes = randint(low, high + 1)` from entropy value 0,
then sample that many holes, each consuming four further entropy values in
loop order. -/
def get_params_dependent_on_targets (height width : Int)
    (num_holes_range : Int × Int) (height_range width_range : Scalar × Scalar)
    (e : Nat → ℚ) : List Hole :=
  let num_holes := randint num_holes_range.1 (num_holes_range.2 + 1) (e 0)
  (List.range num_holes.toNat).map (sampleHole height width height_range width_range e)

/-- One loop iteration in the per-hole draw order stated by the spec
(§4.1: height, width, then x, then y): the x draw takes entropy value
`4*i+3` and the y draw `4*i+4`. -/
def sampleHoleSpecOrder (height width : Int) (height_range width_range : Scalar × Scalar)
    (e : Nat → ℚ) (i : Nat) : Hole :=
  let d := calculate_hole_dimensions height width height_range width_range (e (4*i+1)) (e (4*i+2))
  let x1 := randint 0 (width - d.2 + 1) (e (4*i+3))
  let y1 := randint 0 (height - d.1 + 1) (e (4*i+4))
  { x1 := x1, y1 := y1, x2 := x1 + d.2, y2 := y1 + d.1 }

/-- Modelled from the spec: the hole sampler with the per-hole draw order
the spec states (count, then per hole height, width, x, y). -/
def get_params_spec_draw_order (height width : Int)
    (num_holes_range : Int × Int) (height_range width_range : Scalar × Scalar)
    (e : Nat → ℚ) : List Hole :=
  let num_holes := randint num_holes_range.1 (num_holes_range.2 + 1) (e 0)
  (List.range num_holes.toNat).map (sampleHoleSpecOrder height width height_range width_range e)

/-- The `validate_range` helper inside
`InitSchema.check_holes_and_dimensions` (lines 120–127 of the source):
raises unless `minimum ≤ range[0] ≤ range[1]`, and, when `range[0]` is a
float, unless both values lie in `[0, 1]`.  `true` means validation
passes. -/
def validate_range (r : Scalar × Scalar) (minimum : ℚ) : Bool :=
  (decide (minimum ≤ scalarVal r.1) && decide (scalarVal r.1 ≤ scalarVal r.2)) &&
    (!(isFracScalar r.1) ||
      (decide (0 ≤ scalarVal r.1) && decide (scalarVal r.1 ≤ 1) &&
       decide (0 ≤ scalarVal r.2) && decide (scalarVal r.2 ≤ 1)))

/-- The validation performed by `check_holes_and_dimensions` on the three
(post-normalization) ranges: `num_holes_range` with minimum 1, the two
size ranges with minimum 0 (lines 129–132 of the source).  `true` means
construction succeeds. -/
def validation_ok (num_holes_range : Int × Int)
    (height_range width_range : Scalar × Scalar) : Bool :=
  validate_range (.int num_holes_range.1, .int num_holes_range.2) 1 &&
    validate_range height_range 0 && validate_range width_range 0

/-- The error condition exactly as claim C8 states it: a range's low
exceeds its high, or a fraction-typed range (first element a float, as
elsewhere in this file) has a value outside `[0, 1]`, or
`num_holes_range`'s low is below 1.  Stated from the claim's words, to be
compared with `validation_ok`. -/
def claimed_config_error (num_holes_range : Int × Int)
    (height_range width_range : Scalar × Scalar) : Bool :=
  decide (num_holes_range.2 < num_holes_range.1) ||
    decide (scalarVal height_range.2 < scalarVal height_range.1) ||
    decide (scalarVal width_range.2 < scalarVal width_range.1) ||
    (isFracScalar height_range.1 &&
      !(decide (0 ≤ scalarVal height_range.1) && decide (scalarVal height_range.1 ≤ 1) &&
        decide (0 ≤ scalarVal height_range.2) && decide (scalarVal height_range.2 ≤ 1))) ||
    (isFracScalar width_range.1 &&
      !(decide (0 ≤ scalarVal width_range.1) && decide (scalarVal width_range.1 ≤ 1) &&
        decide (0 ≤ scalarVal width_range.2) && decide (scalarVal width_range.2 ≤ 1))) ||
    decide (num_holes_range.1 < 1)

/-- Python `a or b` for an optional numeric `a` (`None`, `0` and `0.0` are
falsy), as used in `update_range`'s `min_value or max_value`. -/
def pyOr (a : Option Scalar) (b : Scalar) : Scalar :=
  match a with
  | none => b
  | some s => if scalarVal s = 0 then b else s

/-- The `update_range` helper inside `check_holes_and_dimensions`
(lines 104–112 of the source): when the legacy `max_value` is not `None`
the result is `(min_value or max_value, max_value)`, otherwise the
user-supplied `default_range` is kept. -/
def update_range (min_value max_value : Option Scalar)
    (default_range : Scalar × Scalar) : Scalar × Scalar :=
  match max_value with
  | some mx => (pyOr min_value mx, mx)
  | none => default_range

/-- An image or mask buffer: a value at each pixel coordinate (row,
column).  Channel structure is irrelevant to the claims treated here. -/
def Image : Type := Nat → Nat → ℚ

/-- Modelled from the spec: `cutout` (module
`albumentations.augmentations.dropout.functional`, not among the
sources).  Per spec §4.2 it overwrites, for each hole in order, the
half-open region `[y1:y2, x1:x2]` with the fill value. -/
def cutout (img : Image) (holes : List Hole) (fill : ℚ) : Image :=
  holes.foldl
    (fun acc h => fun y x =>
      if h.y1 ≤ (y : Int) ∧ (y : Int) < h.y2 ∧ h.x1 ≤ (x : Int) ∧ (x : Int) < h.x2
      then fill else acc y x)
    img

/-- `CoarseDropout.apply_to_mask` (lines 169–178 of the source): when
`mask_fill_value is None` the mask is returned unchanged, otherwise the
holes are cut out of it. -/
def apply_to_mask (mask : Image) (mask_fill_value : Option ℚ) (holes : List Hole) : Image :=
  match mask_fill_value with
  | none => mask
  | some v => cutout mask holes v

/-- Modelled from the spec: `keypoint_in_hole` (module
`albumentations.augmentations.dropout.functional`, not among the
sources).  Per spec §4.2 a point `(px, py)` is inside hole
`(x1, y1, x2, y2)` iff `x1 ≤ px < x2` and `y1 ≤ py < y2` (half-open). -/
def keypoint_in_hole (k : ℚ × ℚ) (h : Hole) : Bool :=
  decide ((h.x1 : ℚ) ≤ k.1) && decide (k.1 < (h.x2 : ℚ)) &&
    decide ((h.y1 : ℚ) ≤ k.2) && decide (k.2 < (h.y2 : ℚ))

/-- `CoarseDropout.apply_to_keypoints` (lines 231–237 of the source):
keeps exactly the keypoints contained in no hole, in input order. -/
def apply_to_keypoints (keypoints : List (ℚ × ℚ)) (holes : List Hole) : List (ℚ × ℚ) :=
  keypoints.filter (fun k => !(holes.any (fun h => keypoint_in_hole k h)))

/-- An integer-typed size range: both elements are Python ints. -/
def intTypedRange (r : Scalar × Scalar) : Prop :=
  ∃ a b, r = (Scalar.int a, Scalar.int b)

/-- A fraction-typed size range: both elements are Python floats. -/
def fracTypedRange (r : Scalar × Scalar) : Prop :=
  ∃ p q, r = (Scalar.frac p, Scalar.frac q)

/-! ## Helper lemmas -/

theorem ratTrunc_of_nonneg {q : ℚ} (h : 0 ≤ q) : ratTrunc q = ⌊q⌋ := if_pos h

theorem randint_mem {lo hi : Int} (r : ℚ) (hlh : lo ≤ hi) (h0 : 0 ≤ r) (h1 : r < 1) :
    lo ≤ randint lo (hi + 1) r ∧ randint lo (hi + 1) r ≤ hi := by
  have hn : (0 : Int) < hi + 1 - lo := by omega
  have hnq : (0 : ℚ) < ((hi + 1 - lo : Int) : ℚ) := by exact_mod_cast hn
  have hfl0 : 0 ≤ ⌊r * ((hi + 1 - lo : Int) : ℚ)⌋ :=
    Int.floor_nonneg.mpr (mul_nonneg h0 (le_of_lt hnq))
  have hflt : ⌊r * ((hi + 1 - lo : Int) : ℚ)⌋ < hi + 1 - lo := by
    apply Int.floor_lt.mpr
    calc r * ((hi + 1 - lo : Int) : ℚ) < 1 * ((hi + 1 - lo : Int) : ℚ) :=
          mul_lt_mul_of_pos_right h1 hnq
      _ = ((hi + 1 - lo : Int) : ℚ) := one_mul _
  unfold randint
  omega

theorem uniform_mem {lo hi r : ℚ} (hlh : lo ≤ hi) (h0 : 0 ≤ r) (h1 : r < 1) :
    lo ≤ uniform lo hi r ∧ uniform lo hi r ≤ hi := by
  unfold uniform
  have hd : 0 ≤ hi - lo := sub_nonneg.mpr hlh
  constructor
  · nlinarith
  · nlinarith

theorem scalarMin_int (b m : Int) : scalarMin (.int b) m = .int (min b m) := by
  simp only [scalarMin, scalarVal]
  split_ifs with h
  · have hbm : b ≤ m := by exact_mod_cast h
    rw [min_eq_left hbm]
  · have hmb : m ≤ b := le_of_lt (by exact_mod_cast not_le.mp h)
    rw [min_eq_right hmb]

theorem validate_range_int {a b : Int} {m : ℚ}
    (h : validate_range (.int a, .int b) m = true) : m ≤ (a : ℚ) ∧ a ≤ b := by
  simp only [validate_range, scalarVal, isFracScalar, Bool.not_false, Bool.true_or,
    Bool.and_true, Bool.and_eq_true, decide_eq_true_eq] at h
  exact ⟨h.1, by exact_mod_cast h.2⟩

theorem validate_range_frac {p q m : ℚ}
    (h : validate_range (.frac p, .frac q) m = true) :
    m ≤ p ∧ p ≤ q ∧ 0 ≤ p ∧ p ≤ 1 ∧ 0 ≤ q ∧ q ≤ 1 := by
  simp only [validate_range, scalarVal, isFracScalar, Bool.not_true, Bool.false_or,
    Bool.and_eq_true, decide_eq_true_eq] at h
  tauto

/-! ## Claim theorems -/

/-- C3: `apply_to_mask` with `mask_fill_value = None` returns a mask that
is element-wise identical to the input mask, for every hole set. -/
theorem apply_to_mask_none_identity (mask : Image) (holes : List Hole) (y x : Nat) :
    apply_to_mask mask none holes y x = mask y x := rfl

/-- C5 counterexample: with a fraction-typed `hole_height_range` and an
integer-typed `hole_width_range`, the source's `calculate_hole_dimensions`
does not compute the width according to the width range's own type: on a
10×10 image with `hole_height_range = (0.5, 0.5)` and
`hole_width_range = (2, 2)` and entropy values 0 it yields `(5, 20)`,
while the per-own-range computation the claim states yields `(5, 2)`. -/
theorem calculate_hole_dimensions_mixed_counterexample :
    calculate_hole_dimensions 10 10 (.frac (1/2), .frac (1/2)) (.int 2, .int 2) 0 0 ≠
      calculate_hole_dimensions_by_own_range 10 10 (.frac (1/2), .frac (1/2)) (.int 2, .int 2) 0 0 := by
  have h1 : calculate_hole_dimensions 10 10 (.frac (1/2), .frac (1/2)) (.int 2, .int 2) 0 0 = (5, 20) := by
    simp only [calculate_hole_dimensions, scalarVal, uniform, ratTrunc]
    norm_num
  have h2 : calculate_hole_dimensions_by_own_range 10 10 (.frac (1/2), .frac (1/2)) (.int 2, .int 2) 0 0 = (5, 2) := by
    simp only [calculate_hole_dimensions_by_own_range, sizeFromOwnRange, scalarVal, scalarTrunc,
      scalarMin, scalarAddOne, uniform, ratTrunc, randint]
    norm_num
  rw [h1, h2]
  simp

/-- C5 (amended): both hole dimensions are dispatched on the type of
`hole_height_range`'s first element; whenever the two ranges have the
same type (in particular for all homogeneous configurations), each
dimension is computed from its own range exactly as the claim states. -/
theorem calculate_hole_dimensions_same_type_per_range (height width : Int)
    (hr wr : Scalar × Scalar) (rh rw : ℚ)
    (hsame : isFracScalar hr.1 = isFracScalar wr.1) :
    calculate_hole_dimensions height width hr wr rh rw =
      calculate_hole_dimensions_by_own_range height width hr wr rh rw := by
  rcases hr with ⟨hr1, hr2⟩
  rcases wr with ⟨wr1, wr2⟩
  cases hr1 <;> cases wr1 <;>
    simp_all [isFracScalar, calculate_hole_dimensions,
      calculate_hole_dimensions_by_own_range, sizeFromOwnRange, scalarTrunc]

/-- C5 witness: for homogeneous integer-typed ranges the source and the
per-own-range computation agree on a concrete input. -/
theorem calculate_hole_dimensions_same_type_per_range_witness :
    calculate_hole_dimensions 10 10 (.int 2, .int 3) (.int 1, .int 4) (1/3) (1/2) =
      calculate_hole_dimensions_by_own_range 10 10 (.int 2, .int 3) (.int 1, .int 4) (1/3) (1/2) :=
  calculate_hole_dimensions_same_type_per_range 10 10 (.int 2, .int 3) (.int 1, .int 4) (1/3) (1/2) rfl

/-- C7: a fraction-typed size range with `low = high = f` yields exactly
`⌊image_dimension * f⌋` on every sample, whatever entropy value is
drawn. -/
theorem fraction_range_degenerate_exact (height width : Int) (f : ℚ)
    (wr : Scalar × Scalar) (rh rw : ℚ) (hh : 0 ≤ height) (hf : 0 ≤ f) :
    (calculate_hole_dimensions height width (.frac f, .frac f) wr rh rw).1 =
      ⌊(height : ℚ) * f⌋ := by
  have hu : uniform f f rh = f := by simp [uniform]
  have hhq : (0 : ℚ) ≤ (height : ℚ) := by exact_mod_cast hh
  simp only [calculate_hole_dimensions, scalarVal, hu]
  exact ratTrunc_of_nonneg (mul_nonneg hhq hf)

/-- C7 witness: `hole_height_range = (0.5, 0.5)` fraction-typed on a
20-pixel-tall image yields hole height exactly 10. -/
theorem fraction_range_degenerate_exact_witness :
    (calculate_hole_dimensions 20 10 (.frac (1/2), .frac (1/2)) (.int 8, .int 8) (1/3) 0).1 = 10 :=
  (fraction_range_degenerate_exact 20 10 (1/2) (.int 8, .int 8) (1/3) 0
    (by norm_num) (by norm_num)).trans (by norm_num)

/-- C8 counterexample: the integer-typed size range `(-1, 1)` satisfies
none of the claim's error conditions (its low does not exceed its high,
it is not fraction-typed, and it is not the hole-count range), yet the
source's validation rejects it, because `validate_range` also requires a
size range's low to be at least 0. -/
theorem validation_negative_low_counterexample :
    validation_ok (1, 1) (.int (-1), .int 1) (.int 8, .int 8) = false ∧
      claimed_config_error (1, 1) (.int (-1), .int 1) (.int 8, .int 8) = false := by
  constructor
  · norm_num [validation_ok, validate_range, scalarVal, isFracScalar]
  · norm_num [claimed_config_error, scalarVal, isFracScalar]

/-- C9: whenever the legacy maximum field is not `None`, `update_range`
discards the user-supplied default range entirely and returns
`(min or max, max)`; a legacy minimum with value 0 is falsy in Python, so
it is coerced to the maximum, yielding `(max, max)` rather than
`(0, max)`. -/
theorem update_range_legacy_override (mn mx : Scalar) (d d' : Scalar × Scalar) :
    update_range (some mn) (some mx) d = update_range (some mn) (some mx) d' ∧
    update_range none (some mx) d = (mx, mx) ∧
    (scalarVal mn = 0 → update_range (some mn) (some mx) d = (mx, mx)) ∧
    (scalarVal mn ≠ 0 → update_range (some mn) (some mx) d = (mn, mx)) := by
  refine ⟨rfl, rfl, ?_, ?_⟩ <;> intro h <;> simp [update_range, pyOr, h]

/-- C9 witness: an explicit legacy minimum of 0 with maximum 8 produces
the range `(8, 8)`, whatever range the user supplied. -/
theorem update_range_legacy_override_witness :
    update_range (some (.int 0)) (some (.int 8)) (.int 1, .int 2) = (.int 8, .int 8) :=
  (update_range_legacy_override (.int 0) (.int 8) (.int 1, .int 2) (.int 3, .int 4)).2.2.1
    (by norm_num [scalarVal])

/-- C10: for a range whose first element is an int, `validate_range`
reduces to the pure bounds check — the `[0, 1]` fraction check is never
applied, whatever the second element is — and `calculate_hole_dimensions`
takes the integer branch; in particular `(0, 0.7)` passes validation, and
so does `(0, 1.5)` even though 1.5 lies outside `[0, 1]`. -/
theorem int_first_range_validation_and_dispatch :
    (∀ (a : Int) (s : Scalar) (m : ℚ),
        validate_range (.int a, s) m =
          (decide (m ≤ (a : ℚ)) && decide ((a : ℚ) ≤ scalarVal s))) ∧
    (∀ (height width : Int) (a : Int) (s : Scalar) (wr : Scalar × Scalar) (rh rw : ℚ),
        calculate_hole_dimensions height width (.int a, s) wr rh rw =
          (randint a (scalarTrunc (scalarAddOne (scalarMin s height))) rh,
           randint (scalarTrunc wr.1) (scalarTrunc (scalarAddOne (scalarMin wr.2 width))) rw)) ∧
    validate_range (.int 0, .frac (7/10)) 0 = true ∧
    validate_range (.int 0, .frac (3/2)) 0 = true := by
  refine ⟨?_, ?_, by norm_num [validate_range, scalarVal, isFracScalar],
    by norm_num [validate_range, scalarVal, isFracScalar]⟩
  · intro a s m
    simp [validate_range, isFracScalar, scalarVal]
  · intro height width a s wr rh rw
    rfl

/-- C6 counterexample: the sampler does not consume the per-hole
coordinate draws in the order the claim states (x then y): the source
draws `y1` before `x1`, so on a 10×20 image with degenerate size ranges
and entropy values 1/3 and 1/2 at draw positions 3 and 4, the produced
hole differs from the one obtained with the claimed draw order. -/
theorem get_params_spec_draw_order_counterexample :
    get_params_dependent_on_targets 10 20 (1, 1) (.int 2, .int 2) (.int 3, .int 3)
        (fun j => if j = 3 then 1/3 else if j = 4 then 1/2 else 0) ≠
      get_params_spec_draw_order 10 20 (1, 1) (.int 2, .int 2) (.int 3, .int 3)
        (fun j => if j = 3 then 1/3 else if j = 4 then 1/2 else 0) := by
  have hd : calculate_hole_dimensions 10 20 (.int 2, .int 2) (.int 3, .int 3)
      ((fun j : Nat => if j = 3 then (1/3 : ℚ) else if j = 4 then 1/2 else 0) 1)
      ((fun j : Nat => if j = 3 then (1/3 : ℚ) else if j = 4 then 1/2 else 0) 2) = (2, 3) := by
    simp only [calculate_hole_dimensions, scalarVal, scalarTrunc, scalarMin, scalarAddOne, randint]
    norm_num
  have hn : (randint 1 (1 + 1) ((fun j : Nat => if j = 3 then (1/3 : ℚ) else if j = 4 then 1/2 else 0) 0)).toNat = 1 := by
    simp only [randint]
    norm_num
  have h1 : get_params_dependent_on_targets 10 20 (1, 1) (.int 2, .int 2) (.int 3, .int 3)
      (fun j => if j = 3 then 1/3 else if j = 4 then 1/2 else 0) = [Hole.mk 9 3 12 5] := by
    have hr1 : List.range 1 = [0] := rfl
    simp only [get_params_dependent_on_targets, hn, hr1, List.map_cons, List.map_nil]
    simp only [sampleHole, hd]
    norm_num [randint]
  have h2 : get_params_spec_draw_order 10 20 (1, 1) (.int 2, .int 2) (.int 3, .int 3)
      (fun j => if j = 3 then 1/3 else if j = 4 then 1/2 else 0) = [Hole.mk 6 4 9 6] := by
    have hr1 : List.range 1 = [0] := rfl
    simp only [get_params_spec_draw_order, hn, hr1, List.map_cons, List.map_nil]
    simp only [sampleHoleSpecOrder, hd]
    norm_num [randint]
  rw [h1, h2]
  simp

/-- C2: `apply_to_keypoints` returns exactly the subsequence (input order
preserved) of keypoints contained in no hole, with half-open containment:
a keypoint exactly at a hole's top-left corner is removed (for holes of
positive extent), a keypoint exactly at `(x2, y2)` is retained, and a
zero-width or zero-height hole removes no keypoints. -/
theorem apply_to_keypoints_half_open (kps : List (ℚ × ℚ)) (holes : List Hole) :
    (apply_to_keypoints kps holes).Sublist kps ∧
    (∀ k, k ∈ apply_to_keypoints kps holes ↔
        k ∈ kps ∧ ∀ h ∈ holes, keypoint_in_hole k h = false) ∧
    (∀ h ∈ holes, h.x1 < h.x2 → h.y1 < h.y2 →
        ((h.x1 : ℚ), (h.y1 : ℚ)) ∉ apply_to_keypoints kps holes) ∧
    (∀ h : Hole, ((h.x2 : ℚ), (h.y2 : ℚ)) ∈ kps →
        ((h.x2 : ℚ), (h.y2 : ℚ)) ∈ apply_to_keypoints kps [h]) ∧
    (∀ h : Hole, h.x1 = h.x2 ∨ h.y1 = h.y2 → apply_to_keypoints kps [h] = kps) := by
  have hmemiff : ∀ k hs, k ∈ apply_to_keypoints kps hs ↔
      k ∈ kps ∧ ∀ h ∈ hs, keypoint_in_hole k h = false := by
    intro k hs
    rw [apply_to_keypoints, List.mem_filter]
    simp [List.any_eq_true]
  refine ⟨List.filter_sublist _, fun k => hmemiff k holes, ?_, ?_, ?_⟩
  · intro h hh hx hy hmem
    rw [hmemiff] at hmem
    have hfalse := hmem.2 h hh
    have htrue : keypoint_in_hole ((h.x1 : ℚ), (h.y1 : ℚ)) h = true := by
      simp only [keypoint_in_hole, Bool.and_eq_true, decide_eq_true_eq]
      exact ⟨⟨⟨le_refl _, by exact_mod_cast hx⟩, le_refl _⟩, by exact_mod_cast hy⟩
    rw [htrue] at hfalse
    exact absurd hfalse (by simp)
  · intro h hmem
    rw [hmemiff]
    refine ⟨hmem, ?_⟩
    intro h2 hh2
    rw [List.mem_singleton] at hh2
    subst hh2
    simp [keypoint_in_hole]
  · intro h hz
    rw [apply_to_keypoints]
    apply List.filter_eq_self.mpr
    intro k hk
    simp only [List.any_cons, List.any_nil, Bool.or_false, Bool.not_eq_true']
    simp only [keypoint_in_hole, Bool.and_eq_false_iff, decide_eq_false_iff_not, not_le, not_lt]
    rcases hz with hz | hz
    · by_cases hc : (h.x1 : ℚ) ≤ k.1
      · left; left; right
        rw [hz] at hc
        exact hc
      · left; left; left
        exact lt_of_not_le hc
    · by_cases hc : (h.y1 : ℚ) ≤ k.2
      · right
        rw [hz] at hc
        exact hc
      · left; right
        exact lt_of_not_le hc

/-- C2 witness: against the hole `(2, 2, 6, 6)` the keypoint `(2, 2)` at
the top-left corner is dropped, and a zero-width hole `(2, 2, 2, 9)`
removes nothing from the spec's example keypoint list. -/
theorem apply_to_keypoints_half_open_witness :
    ((2 : ℚ), (2 : ℚ)) ∉ apply_to_keypoints [((1 : ℚ), (1 : ℚ)), (3, 3), (7, 7)] [Hole.mk 2 2 6 6] ∧
      apply_to_keypoints [((1 : ℚ), (1 : ℚ)), (3, 3), (7, 7)] [Hole.mk 2 2 2 9] =
        [((1 : ℚ), (1 : ℚ)), (3, 3), (7, 7)] :=
  ⟨(apply_to_keypoints_half_open [((1 : ℚ), (1 : ℚ)), (3, 3), (7, 7)] [Hole.mk 2 2 6 6]).2.2.1
      (Hole.mk 2 2 6 6) (List.mem_singleton_self _) (by norm_num) (by norm_num),
    (apply_to_keypoints_half_open [((1 : ℚ), (1 : ℚ)), (3, 3), (7, 7)] [Hole.mk 2 2 2 9]).2.2.2.2
      (Hole.mk 2 2 2 9) (Or.inl rfl)⟩

/-- C4: the number of holes produced lies in
`[num_holes_range.low, num_holes_range.high]` inclusive, and the count is
uniform on that interval: for every `k` in the interval, the count equals
`k` precisely when the count draw falls in a subinterval of `[0, 1)` of
length `1 / (high - low + 1)`. -/
theorem num_holes_within_range_uniform (height width lo hi : Int)
    (hr wr : Scalar × Scalar) (e : Nat → ℚ)
    (hlo : 1 ≤ lo) (hlh : lo ≤ hi) (he0 : 0 ≤ e 0) (he1 : e 0 < 1) :
    (lo ≤ ((get_params_dependent_on_targets height width (lo, hi) hr wr e).length : Int) ∧
      ((get_params_dependent_on_targets height width (lo, hi) hr wr e).length : Int) ≤ hi) ∧
    (∀ k : Int, lo ≤ k → k ≤ hi →
      (((get_params_dependent_on_targets height width (lo, hi) hr wr e).length : Int) = k ↔
        ((k : ℚ) - lo) / ((hi : ℚ) - lo + 1) ≤ e 0 ∧
          e 0 < ((k : ℚ) - lo + 1) / ((hi : ℚ) - lo + 1))) := by
  have hlen : (get_params_dependent_on_targets height width (lo, hi) hr wr e).length
      = (randint lo (hi + 1) (e 0)).toNat := by
    simp [get_params_dependent_on_targets]
  have hmem := randint_mem (e 0) hlh he0 he1
  have hn0 : 0 ≤ randint lo (hi + 1) (e 0) := le_trans (by omega) hmem.1
  have hcast : (((randint lo (hi + 1) (e 0)).toNat : Int)) = randint lo (hi + 1) (e 0) :=
    Int.toNat_of_nonneg hn0
  have hnpos : (0 : ℚ) < (hi : ℚ) - lo + 1 := by
    have h1 : (0 : Int) < hi - lo + 1 := by omega
    have h2 : ((0 : Int) : ℚ) < ((hi - lo + 1 : Int) : ℚ) := Int.cast_lt.mpr h1
    push_cast at h2
    linarith
  constructor
  · rw [hlen, hcast]
    exact hmem
  · intro k hk1 hk2
    rw [hlen, hcast]
    constructor
    · intro hkeq
      have hfl : ⌊e 0 * ((hi + 1 - lo : Int) : ℚ)⌋ = k - lo := by
        unfold randint at hkeq
        omega
      rw [Int.floor_eq_iff] at hfl
      obtain ⟨hfl1, hfl2⟩ := hfl
      constructor
      · rw [div_le_iff₀ hnpos]
        push_cast at hfl1 ⊢
        linarith
      · rw [lt_div_iff₀ hnpos]
        push_cast at hfl2 ⊢
        linarith
    · rintro ⟨hd1, hd2⟩
      rw [div_le_iff₀ hnpos] at hd1
      rw [lt_div_iff₀ hnpos] at hd2
      have hfl : ⌊e 0 * ((hi + 1 - lo : Int) : ℚ)⌋ = k - lo := by
        rw [Int.floor_eq_iff]
        constructor
        · push_cast at hd1 ⊢
          linarith
        · push_cast at hd2 ⊢
          linarith
      unfold randint
      omega

/-- C4 witness: with `num_holes_range = (1, 3)` and count draw 1/3 the
number of produced holes lies in `[1, 3]`. -/
theorem num_holes_within_range_uniform_witness :
    1 ≤ ((get_params_dependent_on_targets 10 10 (1, 3) (.int 2, .int 2) (.int 2, .int 2)
        (fun _ => 1/3)).length : Int) ∧
      ((get_params_dependent_on_targets 10 10 (1, 3) (.int 2, .int 2) (.int 2, .int 2)
        (fun _ => 1/3)).length : Int) ≤ 3 :=
  (num_holes_within_range_uniform 10 10 1 3 (.int 2, .int 2) (.int 2, .int 2) (fun _ => 1/3)
    (by norm_num) (by norm_num) (by norm_num) (by norm_num)).1

/-- Bounds for the sampled hole dimensions: for homogeneous validated
ranges whose integer lower bounds do not exceed the corresponding image
dimension, both sampled dimensions lie in `[0, image_dimension]`. -/
theorem calculate_hole_dimensions_bounds (height width : Int)
    (hr wr : Scalar × Scalar) (rh rw : ℚ)
    (hheight : 0 < height) (hwidth : 0 < width)
    (hhom : (intTypedRange hr ∧ intTypedRange wr) ∨ (fracTypedRange hr ∧ fracTypedRange wr))
    (hvh : validate_range hr 0 = true) (hvw : validate_range wr 0 = true)
    (hlh : ∀ a b, hr = (Scalar.int a, Scalar.int b) → a ≤ height)
    (hlw : ∀ a b, wr = (Scalar.int a, Scalar.int b) → a ≤ width)
    (hrh0 : 0 ≤ rh) (hrh1 : rh < 1) (hrw0 : 0 ≤ rw) (hrw1 : rw < 1) :
    0 ≤ (calculate_hole_dimensions height width hr wr rh rw).1 ∧
      (calculate_hole_dimensions height width hr wr rh rw).1 ≤ height ∧
      0 ≤ (calculate_hole_dimensions height width hr wr rh rw).2 ∧
      (calculate_hole_dimensions height width hr wr rh rw).2 ≤ width := by
  rcases hhom with ⟨⟨a, b, hhr⟩, ⟨c, d, hwr⟩⟩ | ⟨⟨p, q, hhr⟩, ⟨u, v, hwr⟩⟩
  · subst hhr
    subst hwr
    obtain ⟨hva, hvab⟩ := validate_range_int hvh
    obtain ⟨hvc, hvcd⟩ := validate_range_int hvw
    have ha0 : (0 : Int) ≤ a := by exact_mod_cast hva
    have hc0 : (0 : Int) ≤ c := by exact_mod_cast hvc
    have hah : a ≤ height := hlh a b rfl
    have hcw : c ≤ width := hlw c d rfl
    have hcomp : calculate_hole_dimensions height width (Scalar.int a, Scalar.int b)
        (Scalar.int c, Scalar.int d) rh rw
        = (randint a (min b height + 1) rh, randint c (min d width + 1) rw) := by
      simp [calculate_hole_dimensions, scalarMin_int, scalarAddOne, scalarTrunc]
    rw [hcomp]
    have h1 := randint_mem rh (le_min hvab hah) hrh0 hrh1
    have h2 := randint_mem rw (le_min hvcd hcw) hrw0 hrw1
    have hbh := min_le_right b height
    have hdw := min_le_right d width
    exact ⟨by omega, by omega, by omega, by omega⟩
  · subst hhr
    subst hwr
    obtain ⟨-, hpq, hp0, hp1, hq0, hq1⟩ := validate_range_frac hvh
    obtain ⟨-, huv, hu0, hu1, hv0, hv1⟩ := validate_range_frac hvw
    have hcomp : calculate_hole_dimensions height width (Scalar.frac p, Scalar.frac q)
        (Scalar.frac u, Scalar.frac v) rh rw
        = (ratTrunc ((height : ℚ) * uniform p q rh), ratTrunc ((width : ℚ) * uniform u v rw)) := by
      simp [calculate_hole_dimensions, scalarVal]
    rw [hcomp]
    have hu1m := uniform_mem hpq hrh0 hrh1
    have hu2m := uniform_mem huv hrw0 hrw1
    have hq0' : 0 ≤ uniform p q rh := le_trans hp0 hu1m.1
    have hq1' : uniform p q rh ≤ 1 := le_trans hu1m.2 hq1
    have hv0' : 0 ≤ uniform u v rw := le_trans hu0 hu2m.1
    have hv1' : uniform u v rw ≤ 1 := le_trans hu2m.2 hv1
    have hhq : (0 : ℚ) ≤ (height : ℚ) := by exact_mod_cast le_of_lt hheight
    have hwq : (0 : ℚ) ≤ (width : ℚ) := by exact_mod_cast le_of_lt hwidth
    have hx0 : 0 ≤ (height : ℚ) * uniform p q rh := mul_nonneg hhq hq0'
    have hy0 : 0 ≤ (width : ℚ) * uniform u v rw := mul_nonneg hwq hv0'
    rw [ratTrunc_of_nonneg hx0, ratTrunc_of_nonneg hy0]
    refine ⟨Int.floor_nonneg.mpr hx0, ?_, Int.floor_nonneg.mpr hy0, ?_⟩
    · have hle : (height : ℚ) * uniform p q rh ≤ (height : ℚ) := by nlinarith
      have := Int.floor_le_floor hle
      rwa [Int.floor_intCast] at this
    · have hle : (width : ℚ) * uniform u v rw ≤ (width : ℚ) := by nlinarith
      have := Int.floor_le_floor hle
      rwa [Int.floor_intCast] at this

/-- C1: with positive image dimensions, homogeneous validated ranges
whose integer lower bounds do not exceed the corresponding image
dimension, and entropy values in `[0, 1)`, every hole produced by the
sampler satisfies `0 ≤ x1 ≤ x2 ≤ width` and `0 ≤ y1 ≤ y2 ≤ height`
(`x1 < x2` and `y1 < y2` failing only for a zero-sized dimension draw,
since `x2 - x1` and `y2 - y1` are exactly the sampled dimensions); in
particular the clamp keeps each sampled dimension at most the image
dimension, so each corner-placement interval is non-empty. -/
theorem coarse_dropout_holes_within_bounds (height width : Int)
    (num_holes_range : Int × Int) (hr wr : Scalar × Scalar) (e : Nat → ℚ)
    (hheight : 0 < height) (hwidth : 0 < width)
    (hhom : (intTypedRange hr ∧ intTypedRange wr) ∨ (fracTypedRange hr ∧ fracTypedRange wr))
    (hvh : validate_range hr 0 = true) (hvw : validate_range wr 0 = true)
    (hlh : ∀ a b, hr = (Scalar.int a, Scalar.int b) → a ≤ height)
    (hlw : ∀ a b, wr = (Scalar.int a, Scalar.int b) → a ≤ width)
    (he : ∀ i, 0 ≤ e i ∧ e i < 1) :
    ∀ hole ∈ get_params_dependent_on_targets height width num_holes_range hr wr e,
      0 ≤ hole.x1 ∧ hole.x1 ≤ hole.x2 ∧ hole.x2 ≤ width ∧
        0 ≤ hole.y1 ∧ hole.y1 ≤ hole.y2 ∧ hole.y2 ≤ height := by
  intro hole hmem
  simp only [get_params_dependent_on_targets, List.mem_map, List.mem_range] at hmem
  obtain ⟨i, -, rfl⟩ := hmem
  obtain ⟨hd1, hd2, hd3, hd4⟩ := calculate_hole_dimensions_bounds height width hr wr
    (e (4*i+1)) (e (4*i+2)) hheight hwidth hhom hvh hvw hlh hlw
    (he _).1 (he _).2 (he _).1 (he _).2
  have hy := @randint_mem 0
    (height - (calculate_hole_dimensions height width hr wr (e (4*i+1)) (e (4*i+2))).1)
    (e (4*i+3)) (by omega) (he _).1 (he _).2
  have hx := @randint_mem 0
    (width - (calculate_hole_dimensions height width hr wr (e (4*i+1)) (e (4*i+2))).2)
    (e (4*i+4)) (by omega) (he _).1 (he _).2
  simp only [sampleHole]
  exact ⟨hx.1, by omega, by omega, hy.1, by omega, by omega⟩

/-- C1 witness: on a 10×10 image with ranges `(2, 2)` and all entropy
values 0 the single produced hole `(0, 0, 2, 2)` satisfies the bounds. -/
theorem coarse_dropout_holes_within_bounds_witness :
    0 ≤ (Hole.mk 0 0 2 2).x1 ∧ (Hole.mk 0 0 2 2).x1 ≤ (Hole.mk 0 0 2 2).x2 ∧
      (Hole.mk 0 0 2 2).x2 ≤ 10 ∧ 0 ≤ (Hole.mk 0 0 2 2).y1 ∧
      (Hole.mk 0 0 2 2).y1 ≤ (Hole.mk 0 0 2 2).y2 ∧ (Hole.mk 0 0 2 2).y2 ≤ 10 := by
  have hlist : get_params_dependent_on_targets 10 10 (1, 1) (.int 2, .int 2) (.int 2, .int 2)
      (fun _ => 0) = [Hole.mk 0 0 2 2] := by
    have hn : (randint 1 (1 + 1) ((fun _ : Nat => (0 : ℚ)) 0)).toNat = 1 := by
      simp only [randint]
      norm_num
    have hr1 : List.range 1 = [0] := rfl
    have hd : calculate_hole_dimensions 10 10 (.int 2, .int 2) (.int 2, .int 2)
        ((fun _ : Nat => (0 : ℚ)) 1) ((fun _ : Nat => (0 : ℚ)) 2) = (2, 2) := by
      simp only [calculate_hole_dimensions, scalarVal, scalarTrunc, scalarMin, scalarAddOne, randint]
      norm_num
    simp only [get_params_dependent_on_targets, hn, hr1, List.map_cons, List.map_nil]
    simp only [sampleHole, hd]
    norm_num [randint]
  exact coarse_dropout_holes_within_bounds 10 10 (1, 1) (.int 2, .int 2) (.int 2, .int 2)
    (fun _ => 0) (by norm_num) (by norm_num)
    (Or.inl ⟨⟨2, 2, rfl⟩, ⟨2, 2, rfl⟩⟩)
    (by norm_num [validate_range, scalarVal, isFracScalar])
    (by norm_num [validate_range, scalarVal, isFracScalar])
    (by
      intro a b hab
      rw [Prod.mk.injEq] at hab
      obtain ⟨h1, h2⟩ := hab
      injection h1 with h1
      omega)
    (by
      intro a b hab
      rw [Prod.mk.injEq] at hab
      obtain ⟨h1, h2⟩ := hab
      injection h1 with h1
      omega)
    (fun _ => ⟨le_refl 0, by norm_num⟩)
    (Hole.mk 0 0 2 2) (by rw [hlist]; exact List.mem_singleton_self _)

/-- C6 (amended): the sampler is deterministic and consumes its draws in
the order: hole count from entropy value 0, then for hole `i` its height
(value `4i+1`), width (`4i+2`), y coordinate (`4i+3`) and x coordinate
(`4i+4`): two entropy streams agreeing on the consumed prefix produce
identical hole sequences, and hole `i` is exactly the rectangle built
from those four draws, with the `4i+3` draw placing `y1` and the `4i+4`
draw placing `x1`. -/
theorem get_params_draw_locality (height width : Int) (num_holes_range : Int × Int)
    (hr wr : Scalar × Scalar) (e e' : Nat → ℚ)
    (h0 : e 0 = e' 0)
    (hagree : ∀ j, j ≤ 4 * (randint num_holes_range.1 (num_holes_range.2 + 1) (e 0)).toNat →
        e j = e' j) :
    (get_params_dependent_on_targets height width num_holes_range hr wr e =
      get_params_dependent_on_targets height width num_holes_range hr wr e') ∧
    (∀ i, i < (randint num_holes_range.1 (num_holes_range.2 + 1) (e 0)).toNat →
      (get_params_dependent_on_targets height width num_holes_range hr wr e)[i]? =
        some { x1 := randint 0
                 (width - (calculate_hole_dimensions height width hr wr (e (4*i+1)) (e (4*i+2))).2 + 1)
                 (e (4*i+4)),
               y1 := randint 0
                 (height - (calculate_hole_dimensions height width hr wr (e (4*i+1)) (e (4*i+2))).1 + 1)
                 (e (4*i+3)),
               x2 := randint 0
                 (width - (calculate_hole_dimensions height width hr wr (e (4*i+1)) (e (4*i+2))).2 + 1)
                 (e (4*i+4)) +
                 (calculate_hole_dimensions height width hr wr (e (4*i+1)) (e (4*i+2))).2,
               y2 := randint 0
                 (height - (calculate_hole_dimensions height width hr wr (e (4*i+1)) (e (4*i+2))).1 + 1)
                 (e (4*i+3)) +
                 (calculate_hole_dimensions height width hr wr (e (4*i+1)) (e (4*i+2))).1 }) := by
  constructor
  · unfold get_params_dependent_on_targets
    rw [← h0]
    apply List.map_congr_left
    intro i hi
    rw [List.mem_range] at hi
    have h1 : e (4*i+1) = e' (4*i+1) := hagree _ (by omega)
    have h2 : e (4*i+2) = e' (4*i+2) := hagree _ (by omega)
    have h3 : e (4*i+3) = e' (4*i+3) := hagree _ (by omega)
    have h4 : e (4*i+4) = e' (4*i+4) := hagree _ (by omega)
    unfold sampleHole
    rw [h1, h2, h3, h4]
  · intro i hi
    unfold get_params_dependent_on_targets
    rw [List.getElem?_map, List.getElem?_range hi]
    rfl

/-- C6 witness: two entropy streams agreeing on the five consumed draws
(but differing later) produce the same hole sequence. -/
theorem get_params_draw_locality_witness :
    get_params_dependent_on_targets 10 10 (1, 1) (.int 2, .int 2) (.int 2, .int 2) (fun _ => 0) =
      get_params_dependent_on_targets 10 10 (1, 1) (.int 2, .int 2) (.int 2, .int 2)
        (fun j => if j ≤ 4 then 0 else 1/2) :=
  (get_params_draw_locality 10 10 (1, 1) (.int 2, .int 2) (.int 2, .int 2) (fun _ => 0)
    (fun j => if j ≤ 4 then 0 else 1/2) (by norm_num)
    (fun j hj => by
      norm_num [randint] at hj
      show (0 : ℚ) = if j ≤ 4 then (0 : ℚ) else 1/2
      rw [if_pos hj])).1

/-- C8 (amended): configuration validation succeeds if and only if
`num_holes_range` satisfies `1 ≤ low ≤ high` and each size range
satisfies `0 ≤ low ≤ high` with, for fraction-typed ranges, both values
in `[0, 1]`; equivalently it raises exactly on the claim's three
conditions plus a size range with negative low. -/
theorem validation_ok_iff (num_holes_range : Int × Int) (hr wr : Scalar × Scalar) :
    validation_ok num_holes_range hr wr = true ↔
      ((1 ≤ num_holes_range.1 ∧ num_holes_range.1 ≤ num_holes_range.2) ∧
        (0 ≤ scalarVal hr.1 ∧ scalarVal hr.1 ≤ scalarVal hr.2 ∧
          (isFracScalar hr.1 = true →
            0 ≤ scalarVal hr.1 ∧ scalarVal hr.1 ≤ 1 ∧ 0 ≤ scalarVal hr.2 ∧ scalarVal hr.2 ≤ 1)) ∧
        (0 ≤ scalarVal wr.1 ∧ scalarVal wr.1 ≤ scalarVal wr.2 ∧
          (isFracScalar wr.1 = true →
            0 ≤ scalarVal wr.1 ∧ scalarVal wr.1 ≤ 1 ∧ 0 ≤ scalarVal wr.2 ∧ scalarVal wr.2 ≤ 1))) := by
  have hnum : (1 : ℚ) ≤ ((num_holes_range.1 : Int) : ℚ) ↔ 1 ≤ num_holes_range.1 := by
    exact_mod_cast Iff.rfl
  have hnum2 : ((num_holes_range.1 : Int) : ℚ) ≤ ((num_holes_range.2 : Int) : ℚ) ↔
      num_holes_range.1 ≤ num_holes_range.2 := by exact_mod_cast Iff.rfl
  simp only [validation_ok, validate_range, scalarVal, isFracScalar, Bool.and_eq_true,
    Bool.or_eq_true, Bool.not_eq_true', decide_eq_true_eq, Bool.not_false, Bool.true_or,
    Bool.and_true, true_and, forall_const]
  rw [hnum, hnum2]
  constructor
  · rintro ⟨⟨⟨hn1, hn2⟩, hh1, hh2⟩, hw1, hw2⟩
    refine ⟨⟨hn1, hn2⟩, ⟨hh1.1, hh1.2, ?_⟩, ⟨hw1.1, hw1.2, ?_⟩⟩
    · intro hf
      rcases hh2 with hc | hc
      · rw [hf] at hc
        exact absurd hc (by simp)
      · tauto
    · intro hf
      rcases hw2 with hc | hc
      · rw [hf] at hc
        exact absurd hc (by simp)
      · tauto
  · rintro ⟨⟨hn1, hn2⟩, ⟨hh1, hh2, hh3⟩, hw1, hw2, hw3⟩
    refine ⟨⟨⟨hn1, hn2⟩, ⟨hh1, hh2⟩, ?_⟩, ⟨hw1, hw2⟩, ?_⟩
    · by_cases hf : isFracScalar hr.1 = true
      · right
        have := hh3 hf
        tauto
      · left
        simpa using hf
    · by_cases hf : isFracScalar wr.1 = true
      · right
        have := hw3 hf
        tauto
      · left
        simpa using hf
